import Mathlib

/-!
A shallow embedding of the `risp` S-expression reader (src/main.rs) in Lean 4.

The Rust parser wraps a character iterator with one character of lookahead
(`next_char`) and a tracked source position (`FileLocation`).  We model the
underlying iterator as a `List Char` (a finite sequential character source;
once exhausted it stays exhausted).  Machine `usize` counters become `Nat`.
Rust `char::is_whitespace` is modelled by Lean's `Char.isWhitespace`, which
agrees on all ASCII characters appearing in the grammar and the examples.
Fallible functions return `Except ReadError α` paired with the post-call
parser state, mirroring `Result<_, ReadError>` with `&mut self`.

The mutually recursive grammar functions (`read_sexp`, `read_list`,
`read_list_items`) are defined with an explicit fuel parameter; running out
of fuel yields `none`.  A theorem below shows that fuel `3 * size p + 2`
always suffices for a top-level `read_sexp`, which is the termination
argument for the Rust original.
-/

namespace Risp

/-- `SExp` from src/main.rs: the syntax-tree tagged union. -/
inductive SExp where
  | Cons : SExp → SExp → SExp
  | Nil : SExp
  | Symbol : String → SExp
  | String : String → SExp
  | Integer : Int → SExp
deriving DecidableEq, Repr

/-- `FileLocation` from src/main.rs: file name plus 0-based line and column. -/
structure FileLocation where
  file : String
  line : Nat
  col : Nat
deriving DecidableEq, Repr

/-- `ReadError` from src/main.rs.  `NotImplemented` is the only variant with
no location field. -/
inductive ReadError where
  | EarlyEOF (loc : FileLocation) (msg : String)
  | WrongChar (loc : FileLocation) (msg : String)
  | ParenMismatch (loc : FileLocation) (msg : String)
  | NotImplemented
deriving DecidableEq, Repr

/-- `SExpParser` from src/main.rs: tracked position, the remaining underlying
character source (modelled as a list), and the one-character lookahead buffer. -/
structure SExpParser where
  loc : FileLocation
  iter : List Char
  next_char : Option Char
deriving DecidableEq, Repr

/-- The position update performed when one character is consumed
(src/main.rs lines 194-201): a newline increments `line` and resets `col`
to 0, any other character increments `col` by 1; no character, no change. -/
def nextLoc (loc : FileLocation) : Option Char → FileLocation
  | none => loc
  | some ch =>
    if ch = '\n' then { loc with line := loc.line + 1, col := 0 }
    else { loc with col := loc.col + 1 }

/-- The state after one consuming call: position updated for the character
that was buffered, buffer refilled by one pull from the underlying source. -/
def step (p : SExpParser) : SExpParser :=
  { loc := nextLoc p.loc p.next_char, iter := p.iter.tail, next_char := p.iter.head? }

/-- `Iterator::next` for `SExpParser` (src/main.rs lines 188-204): returns the
buffered lookahead character and the stepped state. -/
def next (p : SExpParser) : Option Char × SExpParser := (p.next_char, step p)

/-- `Peek::peek` for `SExpParser` (src/main.rs lines 211-216): returns the
lookahead buffer without any state change (in Rust it takes `&self`; here its
type returns no new state, so peeking cannot change the position). -/
def peek (p : SExpParser) : Option Char := p.next_char

/-- `advance` (src/main.rs lines 157-159): consume and discard one character. -/
def advance (p : SExpParser) : SExpParser := (next p).2

/-- Number of characters still available: the underlying source plus the
lookahead buffer.  This is the termination measure. -/
def size (p : SExpParser) : Nat :=
  p.iter.length + (if p.next_char.isSome then 1 else 0)

/-- `CharExt::is_open_paren` (src/main.rs line 226). -/
def is_open_paren (c : Char) : Bool := c = '(' || c = '[' || c = '\x7b'

/-- `CharExt::is_close_paren` (src/main.rs line 227). -/
def is_close_paren (c : Char) : Bool := c = ')' || c = ']' || c = '\x7d'

/-- `CharExt::is_matching_paren` (src/main.rs lines 228-235). -/
def is_matching_paren (c other : Char) : Bool :=
  if c = '(' then other = ')'
  else if c = '[' then other = ']'
  else if c = '\x7b' then other = '\x7d'
  else false

/-- `CharExt::is_delimiter` (src/main.rs lines 237-243). -/
def is_delimiter (c : Char) : Bool :=
  c.isWhitespace || is_open_paren c || is_close_paren c || c = '\"'

/-- A single-quote character, used in the error message texts. -/
def sq : String := String.singleton (Char.ofNat 39)

/-- `error_eof` (src/main.rs lines 162-167). -/
def error_eof (p : SExpParser) : ReadError :=
  ReadError.EarlyEOF p.loc "Unexpected End of File"

/-- The message built by `error_wrong_char` (src/main.rs line 172). -/
def wrong_char_msg (c : Char) (expected : String) : String :=
  "Unexpect character " ++ sq ++ String.singleton c ++ sq ++
    " expected one of " ++ sq ++ expected ++ sq

/-- `error_wrong_char` (src/main.rs lines 169-174). -/
def error_wrong_char (p : SExpParser) (c : Char) (expected : String) : ReadError :=
  ReadError.WrongChar p.loc (wrong_char_msg c expected)

/-- The message built by `error_paren_mismatch` (src/main.rs line 179). -/
def paren_mismatch_msg (c1 c2 : Char) : String :=
  "List delimiters don" ++ sq ++ "t match:  " ++ sq ++ String.singleton c1 ++ sq ++
    " and " ++ sq ++ String.singleton c2 ++ sq

/-- `error_paren_mismatch` (src/main.rs lines 176-181). -/
def error_paren_mismatch (p : SExpParser) (c1 c2 : Char) : ReadError :=
  ReadError.ParenMismatch p.loc (paren_mismatch_msg c1 c2)

/-- `error_not_implemented` (src/main.rs lines 183-185). -/
def error_not_implemented (_p : SExpParser) : ReadError :=
  ReadError.NotImplemented

/-- `eat_white_space` (src/main.rs lines 34-42): consume characters while the
lookahead is whitespace. -/
def eat_white_space (p : SExpParser) : SExpParser :=
  match h : peek p with
  | some c =>
    if c.isWhitespace then eat_white_space (advance p) else p
  | none => p
termination_by size p
decreasing_by
  cases p with
  | mk loc iter nc =>
    cases h
    cases iter <;> simp [advance, next, step, size]

/-- The accumulation loop of `read_symbol` (src/main.rs lines 98-104):
push characters while the lookahead exists and is not a delimiter. -/
def read_symbol_aux (acc : List Char) (p : SExpParser) : List Char × SExpParser :=
  match h : peek p with
  | some c =>
    if is_delimiter c then (acc, p)
    else read_symbol_aux (acc ++ [c]) (advance p)
  | none => (acc, p)
termination_by size p
decreasing_by
  cases p with
  | mk loc iter nc =>
    cases h
    cases iter <;> simp [advance, next, step, size]

/-- `read_symbol` (src/main.rs lines 95-107). -/
def read_symbol (p : SExpParser) : Except ReadError SExp × SExpParser :=
  let r := read_symbol_aux [] p
  (Except.ok (SExp.Symbol (String.mk r.1)), r.2)

/-- `read_escaped_string_char` (src/main.rs lines 109-125): consume one
character; a backslash consumes a second character and maps n/t/r to their
control characters, everything else to itself. -/
def read_escaped_string_char (p : SExpParser) : Except ReadError Char × SExpParser :=
  match p.next_char with
  | none => (Except.error (error_eof (step p)), step p)
  | some c =>
    if c = '\\' then
      match (step p).next_char with
      | none => (Except.error (error_eof (step (step p))), step (step p))
      | some c2 =>
        (Except.ok (if c2 = 'n' then '\n'
                    else if c2 = 't' then '\t'
                    else if c2 = 'r' then '\r'
                    else c2), step (step p))
    else (Except.ok c, step p)

/-- The main loop of `read_string` (src/main.rs lines 138-147): peek; a quote
ends the string, otherwise decode one (possibly escaped) character and
append; EOF is an error. -/
def read_string_aux (acc : List Char) (p : SExpParser) :
    Except ReadError (List Char) × SExpParser :=
  match h : peek p with
  | none => (Except.error (error_eof p), p)
  | some c =>
    if c = '\"' then (Except.ok acc, advance p)
    else
      match hr : read_escaped_string_char p with
      | (Except.error e, p') => (Except.error e, p')
      | (Except.ok ch, p') => read_string_aux (acc ++ [ch]) p'
termination_by size p
decreasing_by
  have hstep_le : ∀ q : SExpParser, size (step q) ≤ size q := by
    intro q
    cases q with
    | mk loc iter nc => cases iter <;> cases nc <;> simp [step, size]
  have hstep_lt : size (step p) < size p := by
    cases p with
    | mk loc iter nc =>
      cases h
      cases iter <;> simp [step, size]
  have h' : p.next_char = some c := h
  simp only [read_escaped_string_char, h'] at hr
  by_cases hb : c = '\\'
  · rw [if_pos hb] at hr
    cases h2 : (step p).next_char with
    | none => rw [h2] at hr; simp at hr
    | some c2 =>
      rw [h2] at hr
      simp only [Prod.mk.injEq] at hr
      obtain ⟨-, h3⟩ := hr
      subst h3
      have := hstep_le (step p)
      omega
  · rw [if_neg hb] at hr
    simp only [Prod.mk.injEq] at hr
    obtain ⟨-, h3⟩ := hr
    subst h3
    omega

/-- `read_string` (src/main.rs lines 127-150). -/
def read_string (p : SExpParser) : Except ReadError SExp × SExpParser :=
  match peek p with
  | none => (Except.error (error_eof p), p)
  | some c =>
    if c ≠ '\"' then (Except.error (error_wrong_char p c "\""), p)
    else
      match read_string_aux [] (advance p) with
      | (Except.error e, p') => (Except.error e, p')
      | (Except.ok cs, p') => (Except.ok (SExp.String (String.mk cs)), p')

/-- `read_number` (src/main.rs lines 152-154): always `NotImplemented`. -/
def read_number (p : SExpParser) : Except ReadError SExp × SExpParser :=
  (Except.error (error_not_implemented p), p)

mutual

/-- `read_sexp` (src/main.rs lines 44-58), with fuel for the mutual
recursion: dispatch on the (unconsumed) lookahead character. -/
def read_sexp : Nat → SExpParser → Option (Except ReadError SExp × SExpParser)
  | 0, _ => none
  | n + 1, p =>
    match peek p with
    | none => some (Except.error (error_eof p), p)
    | some c =>
      if is_open_paren c then read_list n p
      else if c = '-' || c.isDigit then some (read_number p)
      else if c = '\"' then some (read_string p)
      else if !c.isWhitespace then some (read_symbol p)
      else some (Except.error (error_wrong_char p c "Any"), p)

/-- `read_list` (src/main.rs lines 60-78): consume the opening bracket, read
the items, then check (without consuming) that the terminating character
matches the opening bracket kind. -/
def read_list : Nat → SExpParser → Option (Except ReadError SExp × SExpParser)
  | 0, _ => none
  | n + 1, p =>
    match peek p with
    | none => some (Except.error (error_eof p), p)
    | some c1 =>
      if is_open_paren c1 then
        match read_list_items n (advance p) with
        | none => none
        | some (Except.error e, p') => some (Except.error e, p')
        | some (Except.ok items, p') =>
          match peek p' with
          | none => some (Except.error (error_eof p'), p')
          | some c2 =>
            if is_matching_paren c1 c2 then some (Except.ok items, p')
            else some (Except.error (error_paren_mismatch p' c1 c2), p')
      else some (Except.error (error_wrong_char p c1 "(\x7b["), p)

/-- `read_list_items` (src/main.rs lines 80-93): skip whitespace; a close
paren ends the list (left unconsumed, yielding `Nil`); otherwise read one
sexp as head and recurse for the tail, building a `Cons` chain. -/
def read_list_items : Nat → SExpParser → Option (Except ReadError SExp × SExpParser)
  | 0, _ => none
  | n + 1, p =>
    match peek (eat_white_space p) with
    | none => some (Except.error (error_eof (eat_white_space p)), eat_white_space p)
    | some c =>
      if is_close_paren c then some (Except.ok SExp.Nil, eat_white_space p)
      else
        match read_sexp n (eat_white_space p) with
        | none => none
        | some (Except.error e, p') => some (Except.error e, p')
        | some (Except.ok head, p') =>
          match read_list_items n p' with
          | none => none
          | some (Except.error e, p'') => some (Except.error e, p'')
          | some (Except.ok tail, p'') => some (Except.ok (SExp.Cons head tail), p'')

end

/-- Modelled from the spec: initialization of the lookahead stream ("must
perform one pull from the source to prime the lookahead slot"); no
constructor appears in src/main.rs.  Position starts at line 0, column 0,
and priming does not advance it. -/
def mkParser (file : String) (input : List Char) : SExpParser :=
  match input with
  | [] => { loc := { file := file, line := 0, col := 0 }, iter := [], next_char := none }
  | c :: cs => { loc := { file := file, line := 0, col := 0 }, iter := cs, next_char := some c }

/-- Apply `advance` `n` times. -/
def advanceN : Nat → SExpParser → SExpParser
  | 0, p => p
  | n + 1, p => advanceN n (advance p)

/-- Length of a `Cons` chain (number of items of a proper list). -/
def chainLength : SExp → Nat
  | SExp.Cons _ tail => chainLength tail + 1
  | _ => 0

/-- Whether an `Integer` node occurs anywhere in a tree. -/
def hasInteger : SExp → Bool
  | SExp.Cons a b => hasInteger a || hasInteger b
  | SExp.Integer _ => true
  | _ => false

/-! ## Basic lemmas about the stream and the measure -/

theorem advance_eq_step (p : SExpParser) : advance p = step p := rfl

theorem size_step_le (p : SExpParser) : size (step p) ≤ size p := by
  cases p with
  | mk loc iter nc =>
    cases iter <;> cases nc <;> simp [step, size]

theorem size_step_lt (p : SExpParser) (c : Char) (h : p.next_char = some c) :
    size (step p) < size p := by
  cases p with
  | mk loc iter nc =>
    cases h
    cases iter <;> simp [step, size]

theorem size_advance_le (p : SExpParser) : size (advance p) ≤ size p :=
  size_step_le p

theorem size_advance_lt (p : SExpParser) (c : Char) (h : p.next_char = some c) :
    size (advance p) < size p :=
  size_step_lt p c h

theorem one_le_size_of_peek (p : SExpParser) (c : Char) (h : peek p = some c) :
    1 ≤ size p := by
  cases p with
  | mk loc iter nc => cases h; simp [size]

theorem size_eat_white_space_le (p : SExpParser) : size (eat_white_space p) ≤ size p := by
  induction p using eat_white_space.induct with
  | case1 p c h hw ih =>
    rw [eat_white_space, h]
    simp only [hw, if_pos]
    exact le_trans ih (size_advance_le p)
  | case2 p c h hw =>
    rw [eat_white_space, h]
    simp [hw]
  | case3 p h =>
    rw [eat_white_space, h]

theorem read_escaped_size_lt (p : SExpParser) (c0 : Char) (h : peek p = some c0)
    (ch : Char) (p' : SExpParser)
    (hr : read_escaped_string_char p = (Except.ok ch, p')) : size p' < size p := by
  have hlt : size (step p) < size p := size_step_lt p c0 h
  have hle : size (step (step p)) ≤ size (step p) := size_step_le (step p)
  have h' : p.next_char = some c0 := h
  simp only [read_escaped_string_char, h'] at hr
  by_cases hb : c0 = '\\'
  · rw [if_pos hb] at hr
    cases h2 : (step p).next_char with
    | none => rw [h2] at hr; simp at hr
    | some c2 =>
      rw [h2] at hr
      simp only [Prod.mk.injEq] at hr
      obtain ⟨-, h3⟩ := hr
      subst h3
      omega
  · rw [if_neg hb] at hr
    simp only [Prod.mk.injEq] at hr
    obtain ⟨-, h3⟩ := hr
    subst h3
    omega

/-! ## Size lemmas for the token loops -/

theorem size_read_symbol_aux_le (acc : List Char) (p : SExpParser) :
    size (read_symbol_aux acc p).2 ≤ size p := by
  induction acc, p using read_symbol_aux.induct with
  | case1 acc p c h hd =>
    rw [read_symbol_aux, h]
    simp [hd]
  | case2 acc p c h hd ih =>
    rw [read_symbol_aux, h]
    simp only [hd, if_neg, not_false_iff]
    exact le_trans ih (size_advance_le p)
  | case3 acc p h =>
    rw [read_symbol_aux, h]

theorem read_symbol_aux_stop (acc : List Char) (p : SExpParser) :
    peek (read_symbol_aux acc p).2 = none ∨
      ∃ c, peek (read_symbol_aux acc p).2 = some c ∧ is_delimiter c = true := by
  induction acc, p using read_symbol_aux.induct with
  | case1 acc p c h hd =>
    rw [read_symbol_aux, h]
    simp only [hd, if_pos]
    exact Or.inr ⟨c, h, hd⟩
  | case2 acc p c h hd ih =>
    rw [read_symbol_aux, h]
    simpa [hd] using ih
  | case3 acc p h =>
    rw [read_symbol_aux, h]
    exact Or.inl h

theorem size_read_symbol_aux_lt (acc : List Char) (p : SExpParser) (c : Char)
    (h : peek p = some c) (hd : is_delimiter c = false) :
    size (read_symbol_aux acc p).2 < size p := by
  rw [read_symbol_aux, h]
  simp only [hd, Bool.false_eq_true, if_false]
  exact lt_of_le_of_lt (size_read_symbol_aux_le _ _) (size_advance_lt p c h)

theorem read_escaped_size_le (p : SExpParser) :
    size (read_escaped_string_char p).2 ≤ size p := by
  unfold read_escaped_string_char
  cases h : p.next_char with
  | none => simpa using size_step_le p
  | some c =>
    by_cases hb : c = '\\'
    · simp only [hb, if_pos]
      cases h2 : (step p).next_char with
      | none => simpa using le_trans (size_step_le _) (size_step_le p)
      | some c2 => simpa using le_trans (size_step_le _) (size_step_le p)
    · simp only [hb, if_neg, not_false_iff]
      simpa using size_step_le p

theorem size_read_string_aux_le_aux :
    ∀ n acc p, size p ≤ n → size (read_string_aux acc p).2 ≤ size p := by
  intro n
  induction n with
  | zero =>
    intro acc p hp
    rw [read_string_aux]
    split
    · exact le_refl _
    · next c h =>
      split
      · exact size_advance_le p
      · split
        · next e p' heq =>
          have hle := read_escaped_size_le p
          rw [heq] at hle
          exact hle
        · next ch p' heq =>
          have := one_le_size_of_peek p c h
          omega
  | succ n ih =>
    intro acc p hp
    rw [read_string_aux]
    split
    · exact le_refl _
    · next c h =>
      split
      · exact size_advance_le p
      · split
        · next e p' heq =>
          have hle := read_escaped_size_le p
          rw [heq] at hle
          exact hle
        · next ch p' heq =>
          have hlt := read_escaped_size_lt p c h ch p' heq
          have h2 := ih (acc ++ [ch]) p' (by omega)
          omega

theorem size_read_string_aux_le (acc : List Char) (p : SExpParser) :
    size (read_string_aux acc p).2 ≤ size p :=
  size_read_string_aux_le_aux (size p) acc p (le_refl _)

theorem read_symbol_eq (p : SExpParser) :
    read_symbol p =
      (Except.ok (SExp.Symbol (String.mk (read_symbol_aux [] p).1)),
        (read_symbol_aux [] p).2) := rfl

theorem read_string_size (p : SExpParser) (r : Except ReadError SExp) (p' : SExpParser)
    (h : read_string p = (r, p')) :
    size p' ≤ size p ∧ ((∃ v, r = Except.ok v) → size p' < size p) := by
  unfold read_string at h
  split at h
  · injection h with h1 h2
    subst h2
    exact ⟨le_refl _, fun hv => by rw [← h1] at hv; obtain ⟨v, hv⟩ := hv; cases hv⟩
  · next c hp =>
    split at h
    · injection h with h1 h2
      subst h2
      exact ⟨le_refl _, fun hv => by rw [← h1] at hv; obtain ⟨v, hv⟩ := hv; cases hv⟩
    · split at h
      · next e pi heq =>
        injection h with h1 h2
        subst h2
        have hle := size_read_string_aux_le [] (advance p)
        rw [heq] at hle
        dsimp only at hle
        have hlt := size_advance_lt p c hp
        exact ⟨by omega, fun _ => by omega⟩
      · next cs pi heq =>
        injection h with h1 h2
        subst h2
        have hle := size_read_string_aux_le [] (advance p)
        rw [heq] at hle
        dsimp only at hle
        have hlt := size_advance_lt p c hp
        exact ⟨by omega, fun _ => by omega⟩

theorem is_delimiter_false_of (c : Char) (hw : c.isWhitespace = false)
    (hop : is_open_paren c = false) (hcl : is_close_paren c = false)
    (hq : ¬c = '\"') : is_delimiter c = false := by
  simp [is_delimiter, hw, hop, hcl, hq]

/-! ## Consumption: a some-result never grows the remaining input, and a
successful `read_sexp` whose lookahead is not a close paren strictly
consumes at least one character. -/

theorem consume (f : Nat) :
    (∀ p r p', read_sexp f p = some (r, p') →
      size p' ≤ size p ∧
        (∀ c, peek p = some c → is_close_paren c = false →
          (∃ v, r = Except.ok v) → size p' < size p)) ∧
    (∀ p r p', read_list f p = some (r, p') →
      size p' ≤ size p ∧ ((∃ v, r = Except.ok v) → size p' < size p)) ∧
    (∀ p r p', read_list_items f p = some (r, p') → size p' ≤ size p) := by
  induction f with
  | zero =>
    refine ⟨?_, ?_, ?_⟩ <;> intro p r p' h <;>
      exact absurd h (by simp [read_sexp, read_list, read_list_items])
  | succ n ih =>
    obtain ⟨ihS, ihL, ihI⟩ := ih
    refine ⟨?_, ?_, ?_⟩
    · intro p r p' h
      rw [read_sexp] at h
      split at h
      · next hp =>
        injection h with h'
        injection h' with h1 h2
        subst h2
        refine ⟨le_refl _, fun c hc => ?_⟩
        rw [hp] at hc; cases hc
      · next c hp =>
        split at h
        · next hopen =>
          obtain ⟨hle, hstrict⟩ := ihL p r p' h
          exact ⟨hle, fun c' hc' hcl hok => hstrict hok⟩
        · split at h
          · injection h with h'
            injection h' with h1 h2
            subst h2
            refine ⟨le_refl _, fun c' hc' hcl hok => ?_⟩
            rw [← h1] at hok
            obtain ⟨v, hv⟩ := hok
            cases hv
          · split at h
            · injection h with h'
              have := read_string_size p r p' h'
              exact ⟨this.1, fun c' hc' hcl hok => this.2 hok⟩
            · split at h
              · next hnw =>
                rename_i hop hdig hqn
                injection h with h'
                rw [read_symbol_eq] at h'
                injection h' with h1 h2
                subst h2
                refine ⟨size_read_symbol_aux_le [] p, fun c' hc' hcl hok => ?_⟩
                have hcc : c' = c := by
                  rw [hp] at hc'
                  exact (Option.some.inj hc').symm
                subst hcc
                have hw : c'.isWhitespace = false := by
                  cases hx : c'.isWhitespace
                  · rfl
                  · rw [hx] at hnw; simp at hnw
                have hop' : is_open_paren c' = false := by
                  cases hx : is_open_paren c'
                  · rfl
                  · exact absurd hx hop
                have hd := is_delimiter_false_of c' hw hop' hcl hqn
                exact size_read_symbol_aux_lt [] p c' hp hd
              · injection h with h'
                injection h' with h1 h2
                subst h2
                refine ⟨le_refl _, fun c' hc' hcl hok => ?_⟩
                rw [← h1] at hok
                obtain ⟨v, hv⟩ := hok
                cases hv
    · intro p r p' h
      rw [read_list] at h
      split at h
      · next hp =>
        injection h with h'
        injection h' with h1 h2
        subst h2
        refine ⟨le_refl _, fun hok => ?_⟩
        rw [← h1] at hok
        obtain ⟨v, hv⟩ := hok
        cases hv
      · next c1 hp =>
        split at h
        · next hopen =>
          have hadv : size (advance p) < size p := size_advance_lt p c1 hp
          split at h
          · exact absurd h (by simp)
          · next e pi heq =>
            have hle := ihI (advance p) _ _ heq
            injection h with h'
            injection h' with h1 h2
            subst h2
            exact ⟨by omega, fun _ => by omega⟩
          · next items pi heq =>
            have hle := ihI (advance p) _ _ heq
            split at h
            · injection h with h'
              injection h' with h1 h2
              subst h2
              exact ⟨by omega, fun _ => by omega⟩
            · split at h
              · injection h with h'
                injection h' with h1 h2
                subst h2
                exact ⟨by omega, fun _ => by omega⟩
              · injection h with h'
                injection h' with h1 h2
                subst h2
                exact ⟨by omega, fun _ => by omega⟩
        · injection h with h'
          injection h' with h1 h2
          subst h2
          refine ⟨le_refl _, fun hok => ?_⟩
          rw [← h1] at hok
          obtain ⟨v, hv⟩ := hok
          cases hv
    · intro p r p' h
      rw [read_list_items] at h
      have hq : size (eat_white_space p) ≤ size p := size_eat_white_space_le p
      split at h
      · injection h with h'
        injection h' with h1 h2
        subst h2
        exact hq
      · next c hc =>
        split at h
        · injection h with h'
          injection h' with h1 h2
          subst h2
          exact hq
        · split at h
          · exact absurd h (by simp)
          · next e pi heq =>
            have hle := (ihS _ _ _ heq).1
            injection h with h'
            injection h' with h1 h2
            subst h2
            omega
          · next head pi heq =>
            have hle := (ihS _ _ _ heq).1
            split at h
            · exact absurd h (by simp)
            · next e pj heq2 =>
              have hle2 := ihI _ _ _ heq2
              injection h with h'
              injection h' with h1 h2
              subst h2
              omega
            · next tail pj heq2 =>
              have hle2 := ihI _ _ _ heq2
              injection h with h'
              injection h' with h1 h2
              subst h2
              omega

/-! ## Fuel sufficiency (termination) and absence of Integer results -/

theorem fuel_sufficient (f : Nat) :
    (∀ p, 3 * size p + 2 ≤ f → (read_sexp f p).isSome = true) ∧
    (∀ p, 3 * size p + 1 ≤ f → (read_list f p).isSome = true) ∧
    (∀ p, 3 * size p + 3 ≤ f → (read_list_items f p).isSome = true) := by
  induction f with
  | zero =>
    refine ⟨?_, ?_, ?_⟩ <;> intro p hf <;> omega
  | succ n ih =>
    obtain ⟨ihS, ihL, ihI⟩ := ih
    refine ⟨?_, ?_, ?_⟩
    · intro p hf
      rw [read_sexp]
      split
      · rfl
      · next c hp =>
        split
        · exact ihL p (by omega)
        · split
          · rfl
          · split
            · rfl
            · split
              · rfl
              · rfl
    · intro p hf
      rw [read_list]
      split
      · rfl
      · next c1 hp =>
        split
        · next hopen =>
          have hadv : size (advance p) < size p := size_advance_lt p c1 hp
          have hsome : (read_list_items n (advance p)).isSome = true := ihI _ (by omega)
          obtain ⟨⟨r, pi⟩, hx⟩ := Option.isSome_iff_exists.mp hsome
          rw [hx]
          cases r with
          | error e => rfl
          | ok items =>
            split
            · next heq => exact absurd heq (by simp)
            · rfl
            · next items2 p2 heq =>
              injection heq with heq'
              injection heq' with ha hb
              subst hb
              split
              · rfl
              · split
                · rfl
                · rfl
        · rfl
    · intro p hf
      rw [read_list_items]
      have hqle : size (eat_white_space p) ≤ size p := size_eat_white_space_le p
      split
      · rfl
      · next c hc =>
        split
        · rfl
        · next hcl =>
          have hsome : (read_sexp n (eat_white_space p)).isSome = true := ihS _ (by omega)
          obtain ⟨⟨r, pi⟩, hx⟩ := Option.isSome_iff_exists.mp hsome
          rw [hx]
          cases r with
          | error e => rfl
          | ok head =>
            have hcl' : is_close_paren c = false := by
              cases hy : is_close_paren c
              · rfl
              · exact absurd hy hcl
            have hstrict : size pi < size (eat_white_space p) :=
              ((consume n).1 _ _ _ hx).2 c hc hcl' ⟨head, rfl⟩
            have hsome2 : (read_list_items n pi).isSome = true := ihI _ (by omega)
            split
            · next heq => exact absurd heq (by simp)
            · rfl
            · next head2 p2 heq =>
              injection heq with heq'
              injection heq' with ha hb
              subst hb
              obtain ⟨⟨r2, pj⟩, hy⟩ := Option.isSome_iff_exists.mp hsome2
              rw [hy]
              cases r2 with
              | error e => rfl
              | ok tail => rfl

theorem no_integer (f : Nat) :
    (∀ p v p', read_sexp f p = some (Except.ok v, p') → hasInteger v = false) ∧
    (∀ p v p', read_list f p = some (Except.ok v, p') → hasInteger v = false) ∧
    (∀ p v p', read_list_items f p = some (Except.ok v, p') → hasInteger v = false) := by
  induction f with
  | zero =>
    refine ⟨?_, ?_, ?_⟩ <;> intro p v p' h <;>
      exact absurd h (by simp [read_sexp, read_list, read_list_items])
  | succ n ih =>
    obtain ⟨ihS, ihL, ihI⟩ := ih
    refine ⟨?_, ?_, ?_⟩
    · intro p v p' h
      rw [read_sexp] at h
      split at h
      · injection h with h'
        injection h' with h1 h2
        cases h1
      · next c hp =>
        split at h
        · exact ihL p v p' h
        · split at h
          · injection h with h'
            injection h' with h1 h2
            cases h1
          · split at h
            · injection h with h'
              unfold read_string at h'
              split at h'
              · injection h' with h1 h2; cases h1
              · split at h'
                · injection h' with h1 h2; cases h1
                · split at h'
                  · injection h' with h1 h2; cases h1
                  · injection h' with h1 h2
                    rw [← (Except.ok.inj h1)]
                    rfl
            · split at h
              · injection h with h'
                rw [read_symbol_eq] at h'
                injection h' with h1 h2
                rw [← (Except.ok.inj h1)]
                rfl
              · injection h with h'
                injection h' with h1 h2
                cases h1
    · intro p v p' h
      rw [read_list] at h
      split at h
      · injection h with h'
        injection h' with h1 h2
        cases h1
      · next c1 hp =>
        split at h
        · split at h
          · exact absurd h (by simp)
          · injection h with h'
            injection h' with h1 h2
            cases h1
          · next items pi heq =>
            split at h
            · injection h with h'
              injection h' with h1 h2
              cases h1
            · split at h
              · injection h with h'
                injection h' with h1 h2
                rw [← (Except.ok.inj h1)]
                exact ihI _ _ _ heq
              · injection h with h'
                injection h' with h1 h2
                cases h1
        · injection h with h'
          injection h' with h1 h2
          cases h1
    · intro p v p' h
      rw [read_list_items] at h
      split at h
      · injection h with h'
        injection h' with h1 h2
        cases h1
      · next c hc =>
        split at h
        · injection h with h'
          injection h' with h1 h2
          rw [← (Except.ok.inj h1)]
          rfl
        · split at h
          · exact absurd h (by simp)
          · injection h with h'
            injection h' with h1 h2
            cases h1
          · next head pi heq =>
            split at h
            · exact absurd h (by simp)
            · injection h with h'
              injection h' with h1 h2
              cases h1
            · next tail pj heq2 =>
              injection h with h'
              injection h' with h1 h2
              rw [← (Except.ok.inj h1)]
              have hh := ihS _ _ _ heq
              have ht := ihI _ _ _ heq2
              simp [hasInteger, hh, ht]

/-! ## Claim theorems -/


/-- C1: the spec claims every well-formed bracketed list yields a chain whose
length is the number of top-level items, including a nested list followed by
siblings, e.g. "((a) b)".  The code violates this: `read_list` never consumes
the closing bracket of a nested list, so on "((a) b)" the reader returns the
one-element chain `Cons (Cons (Symbol "a") Nil) Nil` (the sibling `b` is
dropped and " b)" is left unconsumed). -/
theorem C1_nested_list_sibling_dropped :
    read_sexp 32 (mkParser "f" ('(' :: '(' :: 'a' :: ')' :: ' ' :: 'b' :: ')' :: [])) =
      some (Except.ok (SExp.Cons (SExp.Cons (SExp.Symbol "a") SExp.Nil) SExp.Nil),
        { loc := { file := "f", line := 0, col := 3 },
          iter := [' ', 'b', ')'], next_char := some ')' }) ∧
    chainLength (SExp.Cons (SExp.Cons (SExp.Symbol "a") SExp.Nil) SExp.Nil) = 1 := by
  constructor
  · simp [read_sexp, read_list, read_list_items, read_symbol, read_symbol_aux,
      eat_white_space, mkParser, peek, advance, next, step, nextLoc,
      is_open_paren, is_close_paren, is_matching_paren, is_delimiter]
  · rfl

/-- C2: any input whose lookahead is a minus sign or an ASCII digit is
dispatched to `read_number`, which always fails with `NotImplemented`; the
`NotImplemented` variant is a bare constructor carrying no location. -/
theorem C2_digit_or_minus_not_implemented (p : SExpParser) (c : Char) (fuel : Nat)
    (h : peek p = some c) (hc : c = '-' ∨ c.isDigit = true) :
    read_sexp (fuel + 1) p = some (Except.error ReadError.NotImplemented, p) := by
  have hop : is_open_paren c = false := by
    rcases hc with hc | hc
    · subst hc; decide
    · by_cases h1 : c = '('
      · subst h1; exact absurd hc (by decide)
      · by_cases h2 : c = '['
        · subst h2; exact absurd hc (by decide)
        · by_cases h3 : c = '\x7b'
          · subst h3; exact absurd hc (by decide)
          · simp [is_open_paren, h1, h2, h3]
  have hd : (decide (c = '-') || c.isDigit) = true := by
    rcases hc with hc | hc
    · subst hc; simp
    · simp [hc]
  rw [read_sexp]
  simp only [peek] at h
  simp [peek, h, hop, hd, read_number, error_not_implemented]

/-- C2 witness: the input "-" (a bare minus) fails with `NotImplemented`. -/
theorem C2_witness :
    read_sexp 1 (mkParser "f" ('-' :: [])) =
      some (Except.error ReadError.NotImplemented, mkParser "f" ('-' :: [])) :=
  C2_digit_or_minus_not_implemented (mkParser "f" ('-' :: [])) '-' 0 rfl (Or.inl rfl)

/-- C3: when a list's terminating character does not match its opening
bracket kind, `read_list` fails with `ParenMismatch` carrying the message
built from both bracket characters, and that message mentions both. -/
theorem C3_paren_mismatch (fuel : Nat) (p p1 : SExpParser) (c1 c2 : Char) (items : SExp)
    (h1 : peek p = some c1) (hop : is_open_paren c1 = true)
    (hitems : read_list_items fuel (advance p) = some (Except.ok items, p1))
    (h2 : peek p1 = some c2) (hmm : is_matching_paren c1 c2 = false) :
    read_list (fuel + 1) p =
      some (Except.error (ReadError.ParenMismatch p1.loc (paren_mismatch_msg c1 c2)), p1) ∧
    c1 ∈ (paren_mismatch_msg c1 c2).data ∧ c2 ∈ (paren_mismatch_msg c1 c2).data := by
  refine ⟨?_, ?_, ?_⟩
  · rw [read_list]
    simp [h1, hop, hitems, h2, hmm, error_paren_mismatch]
  · simp [paren_mismatch_msg, String.data_append, String.singleton]
  · simp [paren_mismatch_msg, String.data_append, String.singleton]

/-- C3 witness: the input "(a]" fails with `ParenMismatch` referencing both
the opening '(' and the closing ']'. -/
theorem C3_witness :
    read_list 8 (mkParser "f" ('(' :: 'a' :: ']' :: [])) =
      some (Except.error (ReadError.ParenMismatch { file := "f", line := 0, col := 2 }
          (paren_mismatch_msg '(' ']')),
        { loc := { file := "f", line := 0, col := 2 }, iter := [], next_char := some ']' }) ∧
    '(' ∈ (paren_mismatch_msg '(' ']').data ∧ ']' ∈ (paren_mismatch_msg '(' ']').data := by
  have h := C3_paren_mismatch 7 (mkParser "f" ('(' :: 'a' :: ']' :: []))
    { loc := { file := "f", line := 0, col := 2 }, iter := [], next_char := some ']' }
    '(' ']' (SExp.Cons (SExp.Symbol "a") SExp.Nil) rfl rfl
    (by simp [read_list_items, read_sexp, read_symbol, read_symbol_aux, eat_white_space,
      mkParser, peek, advance, next, step, nextLoc,
      is_open_paren, is_close_paren, is_delimiter])
    rfl rfl
  exact h


/-- C4: end of input while reading list items, or at the position of the
expected closing bracket, fails with `EarlyEOF`; in particular the truncated
input "(a" fails with `EarlyEOF`. -/
theorem C4_early_eof :
    (∀ fuel p, peek (eat_white_space p) = none →
      read_list_items (fuel + 1) p =
        some (Except.error (ReadError.EarlyEOF (eat_white_space p).loc
          "Unexpected End of File"), eat_white_space p)) ∧
    (∀ fuel p c1 items p1, peek p = some c1 → is_open_paren c1 = true →
      read_list_items fuel (advance p) = some (Except.ok items, p1) → peek p1 = none →
      read_list (fuel + 1) p =
        some (Except.error (ReadError.EarlyEOF p1.loc "Unexpected End of File"), p1)) ∧
    read_sexp 8 (mkParser "f" ('(' :: 'a' :: [])) =
      some (Except.error (ReadError.EarlyEOF { file := "f", line := 0, col := 2 }
          "Unexpected End of File"),
        { loc := { file := "f", line := 0, col := 2 }, iter := [], next_char := none }) := by
  refine ⟨?_, ?_, ?_⟩
  · intro fuel p h
    rw [read_list_items]
    simp [h, error_eof]
  · intro fuel p c1 items p1 h1 hop hitems h2
    rw [read_list]
    simp [h1, hop, hitems, h2, error_eof]
  · simp [read_sexp, read_list, read_list_items, read_symbol, read_symbol_aux,
      eat_white_space, mkParser, peek, advance, next, step, nextLoc, error_eof,
      is_open_paren, is_close_paren, is_matching_paren, is_delimiter]

/-- C4 witness: reading list items at exhausted input yields `EarlyEOF`. -/
theorem C4_witness :
    read_list_items 1 (mkParser "f" []) =
      some (Except.error (ReadError.EarlyEOF { file := "f", line := 0, col := 0 }
        "Unexpected End of File"), mkParser "f" []) := by
  have heat : eat_white_space (mkParser "f" []) = mkParser "f" [] := by
    rw [eat_white_space]
    rfl
  have h := C4_early_eof.1 0 (mkParser "f" []) (by rw [heat]; rfl)
  rw [heat] at h
  exact h

/-- C5: escape decoding in strings: backslash-n/t/r become newline, tab and
carriage return, any other escaped character passes through literally, EOF
inside an escape is `EarlyEOF`; the source text "a\nb" decodes to the three
characters a, newline, b, and the source text backslash-q decodes to q. -/
theorem C5_escape_decoding :
    (∀ p, peek p = some '\\' → peek (step p) = some 'n' →
      read_escaped_string_char p = (Except.ok '\n', step (step p))) ∧
    (∀ p, peek p = some '\\' → peek (step p) = some 't' →
      read_escaped_string_char p = (Except.ok '\t', step (step p))) ∧
    (∀ p, peek p = some '\\' → peek (step p) = some 'r' →
      read_escaped_string_char p = (Except.ok '\r', step (step p))) ∧
    (∀ p c2, peek p = some '\\' → peek (step p) = some c2 →
      c2 ≠ 'n' → c2 ≠ 't' → c2 ≠ 'r' →
      read_escaped_string_char p = (Except.ok c2, step (step p))) ∧
    (∀ p, peek p = none →
      read_escaped_string_char p =
        (Except.error (ReadError.EarlyEOF (step p).loc "Unexpected End of File"), step p)) ∧
    (∀ p, peek p = some '\\' → peek (step p) = none →
      read_escaped_string_char p =
        (Except.error (ReadError.EarlyEOF (step (step p)).loc "Unexpected End of File"),
          step (step p))) ∧
    read_string (mkParser "f" ('\"' :: 'a' :: '\\' :: 'n' :: 'b' :: '\"' :: [])) =
      (Except.ok (SExp.String ⟨'a' :: '\n' :: 'b' :: []⟩),
        { loc := { file := "f", line := 0, col := 6 }, iter := [], next_char := none }) ∧
    read_string (mkParser "f" ('\"' :: '\\' :: 'q' :: '\"' :: [])) =
      (Except.ok (SExp.String ⟨'q' :: []⟩),
        { loc := { file := "f", line := 0, col := 4 }, iter := [], next_char := none }) := by
  refine ⟨?_, ?_, ?_, ?_, ?_, ?_, ?_, ?_⟩
  · intro p h1 h2
    simp only [peek] at h1 h2
    simp [read_escaped_string_char, h1, h2, error_eof]
  · intro p h1 h2
    simp only [peek] at h1 h2
    simp [read_escaped_string_char, h1, h2, error_eof]
  · intro p h1 h2
    simp only [peek] at h1 h2
    simp [read_escaped_string_char, h1, h2, error_eof]
  · intro p c2 h1 h2 hn ht hr
    simp only [peek] at h1 h2
    simp [read_escaped_string_char, h1, h2, hn, ht, hr]
  · intro p h1
    simp only [peek] at h1
    simp [read_escaped_string_char, h1, error_eof]
  · intro p h1 h2
    simp only [peek] at h1 h2
    simp [read_escaped_string_char, h1, h2, error_eof]
  · simp [read_string, read_string_aux, read_escaped_string_char,
      mkParser, peek, advance, next, step, nextLoc, error_eof]
  · simp [read_string, read_string_aux, read_escaped_string_char,
      mkParser, peek, advance, next, step, nextLoc, error_eof]

/-- C5 witness: an unrecognized escape passes through literally. -/
theorem C5_witness :
    read_escaped_string_char
        { loc := { file := "f", line := 0, col := 0 }, iter := ['q'], next_char := some '\\' } =
      (Except.ok 'q',
        { loc := { file := "f", line := 0, col := 2 }, iter := [], next_char := none }) := by
  have h := C5_escape_decoding.2.2.2.1
    { loc := { file := "f", line := 0, col := 0 }, iter := ['q'], next_char := some '\\' }
    'q' rfl rfl (by decide) (by decide) (by decide)
  exact h


/-- C6: `read_symbol` accumulates until the lookahead is a delimiter or end
of input and stops without consuming the delimiter (the final state's
lookahead, if any, is a delimiter); an immediate delimiter yields the empty
symbol; the top-level input "foo)" yields `Symbol "foo"` leaving the stream
positioned at ')' unconsumed. -/
theorem C6_read_symbol :
    (∀ p c, peek p = some c → is_delimiter c = true →
      read_symbol p = (Except.ok (SExp.Symbol ""), p)) ∧
    (∀ p, peek (read_symbol p).2 = none ∨
      ∃ c, peek (read_symbol p).2 = some c ∧ is_delimiter c = true) ∧
    read_sexp 8 (mkParser "f" ('f' :: 'o' :: 'o' :: ')' :: [])) =
      some (Except.ok (SExp.Symbol "foo"),
        { loc := { file := "f", line := 0, col := 3 }, iter := [], next_char := some ')' }) ∧
    peek (⟨⟨"f", 0, 3⟩, [], some ')'⟩ : SExpParser) = some ')' := by
  refine ⟨?_, ?_, ?_, ?_⟩
  · intro p c h hd
    rw [read_symbol_eq, read_symbol_aux, h]
    simp [hd]
  · intro p
    exact read_symbol_aux_stop [] p
  · simp [read_sexp, read_symbol, read_symbol_aux, mkParser, peek, advance, next, step,
      nextLoc, is_open_paren, is_close_paren, is_delimiter, eat_white_space]
  · rfl

/-- C6 witness: an immediate delimiter yields the empty symbol. -/
theorem C6_witness :
    read_symbol (mkParser "f" (')' :: [])) =
      (Except.ok (SExp.Symbol ""), mkParser "f" (')' :: [])) :=
  C6_read_symbol.1 (mkParser "f" (')' :: [])) ')' rfl (by decide)

/-- C7: position tracking: line and col start at 0; consuming a newline
increments line and resets col to 0; consuming any other character leaves
line unchanged and increments col by 1; the file name never changes; peek
(whose type returns no state) cannot move the position.  Draining the
two-line input "(a\n b)" ends at line 1, column 3 (just past "b)"). -/
theorem C7_position_tracking :
    (∀ file input, (mkParser file input).loc.line = 0 ∧ (mkParser file input).loc.col = 0) ∧
    (∀ p, (next p).1 = some '\n' →
      (next p).2.loc.line = p.loc.line + 1 ∧ (next p).2.loc.col = 0 ∧
        (next p).2.loc.file = p.loc.file) ∧
    (∀ p c, (next p).1 = some c → c ≠ '\n' →
      (next p).2.loc.line = p.loc.line ∧ (next p).2.loc.col = p.loc.col + 1 ∧
        (next p).2.loc.file = p.loc.file) ∧
    (advanceN 6 (mkParser "f" ('(' :: 'a' :: '\n' :: ' ' :: 'b' :: ')' :: []))).loc =
      { file := "f", line := 1, col := 3 } := by
  refine ⟨?_, ?_, ?_, ?_⟩
  · intro file input
    cases input <;> exact ⟨rfl, rfl⟩
  · intro p h
    have h' : p.next_char = some '\n' := h
    simp [next, step, nextLoc, h']
  · intro p c h hc
    have h' : p.next_char = some c := h
    simp [next, step, nextLoc, h', hc]
  · simp [advanceN, advance, next, step, nextLoc, mkParser]

/-- C7 witness: consuming a newline moves to the next line, column 0. -/
theorem C7_witness :
    (next (⟨⟨"f", 0, 5⟩, [], some '\n'⟩ : SExpParser)).2.loc.line = 0 + 1 ∧
    (next (⟨⟨"f", 0, 5⟩, [], some '\n'⟩ : SExpParser)).2.loc.col = 0 ∧
    (next (⟨⟨"f", 0, 5⟩, [], some '\n'⟩ : SExpParser)).2.loc.file = "f" :=
  C7_position_tracking.2.1 (⟨⟨"f", 0, 5⟩, [], some '\n'⟩ : SExpParser) rfl

/-- C8: a top-level `read_sexp` terminates on every finite input: with fuel
at least `3 * size p + 2` the fuelled interpreter never runs out of fuel
(each recursive step consumes input), so the Rust recursion always returns
a tree or an error. -/
theorem C8_termination (p : SExpParser) (fuel : Nat) (hf : 3 * size p + 2 ≤ fuel) :
    (read_sexp fuel p).isSome = true :=
  (fuel_sufficient fuel).1 p hf

/-- C8 witness: termination on the concrete input "a". -/
theorem C8_witness : (read_sexp 5 (mkParser "f" ('a' :: []))).isSome = true :=
  C8_termination (mkParser "f" ('a' :: [])) 5 (by decide)

/-- C9: a successful parse never returns a tree containing an `Integer`
node: the only numeric production always fails, so no parse path constructs
the `Integer` variant. -/
theorem C9_no_integer (fuel : Nat) (p : SExpParser) (v : SExp) (p' : SExpParser)
    (h : read_sexp fuel p = some (Except.ok v, p')) : hasInteger v = false :=
  (no_integer fuel).1 p v p' h

/-- C9 witness: the parse of "a" returns a tree with no `Integer` node. -/
theorem C9_witness : hasInteger (SExp.Symbol "a") = false :=
  C9_no_integer 8 (mkParser "f" ('a' :: [])) (SExp.Symbol "a")
    { loc := { file := "f", line := 0, col := 1 }, iter := [], next_char := none }
    (by simp [read_sexp, read_symbol, read_symbol_aux, mkParser, peek, advance, next, step,
      nextLoc, is_open_paren, is_close_paren, is_delimiter])

/-- C10: at end of input (empty lookahead buffer and exhausted source),
`next` returns none and the state — position, source and buffer — is
unchanged, and `peek` returns none; hence every subsequent `next` or `peek`
behaves identically and consuming past end of input is idempotent. -/
theorem C10_eof_idempotent (p : SExpParser) (h1 : peek p = none) (h2 : p.iter = []) :
    next p = (none, p) ∧ peek p = none := by
  constructor
  · cases p with
    | mk loc iter nc =>
      cases h1
      cases h2
      rfl
  · exact h1

/-- C10 witness: end-of-input behaviour on the empty input. -/
theorem C10_witness :
    next (mkParser "f" []) = (none, mkParser "f" []) ∧ peek (mkParser "f" []) = none :=
  C10_eof_idempotent (mkParser "f" []) rfl rfl


end Risp
